import Mathlib

set_option maxHeartbeats 1000000
set_option linter.unreachableTactic false
set_option linter.unusedTactic false
set_option linter.unnecessarySeqFocus false
set_option linter.unusedVariables false

namespace BestBuy

/-! # Shallow embedding of the bestbuy2 store

Python `float` prices are modelled as `ℚ`, Python `int` as `ℤ`.
Each `raise` site in the source becomes a constructor of `Err`.
In-place mutation is modelled by returning the updated object next to the
result: an operation on a product has type `... → Except Err α × Product`,
where the second component is the object's state after the call (identical
to the input whenever the Python code raises before assigning). -/

/-- Error values corresponding to the distinct raise sites in
`src/products.py`, `src/promotions.py` and `src/store.py`. -/
inductive Err where
  | emptyName : Err
  | negativePrice : Err
  | negativeQuantity : Err
  | nonPositiveMaximum : Err
  | invalidPercent : Err
  | invalidBuyQuantity : Err
  | inactiveProduct (name : String) : Err
  | insufficientStock (name : String) (available requested : ℤ) : Err
  | purchaseLimitExceeded (requested : ℤ) (name : String) (maximum : ℤ) : Err
  | malformedItem : Err
  | notAProduct : Err
  | invalidOrderQuantity : Err
  | orderFailed (name : String) (e : Err) : Err
  deriving DecidableEq

/-- Which Python class the object was created by: `Product` (standard),
`NonStockedProduct`, or `LimitedProduct` with its per-purchase maximum. -/
inductive ProductKind where
  | standard : ProductKind
  | nonStocked : ProductKind
  | limited (maximum : ℤ) : ProductKind
  deriving DecidableEq

/-- State of a product object: fields `name`, `price`, `quantity`, `active`
of `products.Product`, plus the class tag used for method dispatch. -/
structure Product where
  name : String
  price : ℚ
  quantity : ℤ
  active : Bool
  kind : ProductKind
  deriving DecidableEq

/-- `Product.__init__` (src/products.py lines 9-32). -/
def mkProduct (name : String) (price : ℚ) (quantity : ℤ) : Except Err Product :=
  if name = "" then .error .emptyName
  else if price < 0 then .error .negativePrice
  else if quantity < 0 then .error .negativeQuantity
  else .ok ⟨name, price, quantity, decide (0 < quantity), .standard⟩

/-- `NonStockedProduct.__init__` (lines 115-127): parent constructor with
quantity forced to 0, then `active` overridden to `True`. -/
def mkNonStockedProduct (name : String) (price : ℚ) : Except Err Product :=
  (mkProduct name price 0).map fun p => { p with active := true, kind := .nonStocked }

/-- `LimitedProduct.__init__` (lines 171-184): parent constructor first,
then the `maximum > 0` check. -/
def mkLimitedProduct (name : String) (price : ℚ) (quantity maximum : ℤ) :
    Except Err Product :=
  (mkProduct name price quantity).bind fun p =>
    if maximum ≤ 0 then .error .nonPositiveMaximum
    else .ok { p with kind := .limited maximum }

/-- `Product.get_quantity`. -/
def get_quantity (p : Product) : ℤ := p.quantity

/-- `Product.is_active`. -/
def is_active (p : Product) : Bool := p.active

/-- `Product.activate`: sets the flag unconditionally. -/
def activate (p : Product) : Product := { p with active := true }

/-- `Product.deactivate`: clears the flag unconditionally. -/
def deactivate (p : Product) : Product := { p with active := false }

/-- Virtual dispatch of `set_quantity`: `NonStockedProduct` overrides it with
a no-op (lines 129-134); the inherited version (lines 38-55) rejects negative
values and otherwise stores the value and re-derives `active`. -/
def set_quantity (p : Product) (quantity : ℤ) : Except Err Unit × Product :=
  match p.kind with
  | .nonStocked => (.ok (), p)
  | _ =>
    if quantity < 0 then (.error .negativeQuantity, p)
    else (.ok (), { p with quantity := quantity, active := decide (0 < quantity) })

/-- Body of `Product.buy` (lines 76-106), also reached from
`LimitedProduct.buy` via `super().buy(quantity)`. -/
def buyBase (p : Product) (quantity : ℤ) : Except Err ℚ × Product :=
  if quantity ≤ 0 then (.error .invalidBuyQuantity, p)
  else if is_active p = false then (.error (.inactiveProduct p.name), p)
  else if p.quantity < quantity then
    (.error (.insufficientStock p.name p.quantity quantity), p)
  else
    let total_price := p.price * quantity
    let r := set_quantity p (p.quantity - quantity)
    match r.1 with
    | .ok _ => (.ok total_price, r.2)
    | .error e => (.error e, r.2)

/-- Virtual dispatch of `buy`: `NonStockedProduct.buy` (lines 136-156) only
checks positivity and never touches state; `LimitedProduct.buy`
(lines 186-210) checks positivity, then the per-purchase maximum, then
defers to the parent body; `Product.buy` is `buyBase`. -/
def buy (p : Product) (quantity : ℤ) : Except Err ℚ × Product :=
  match p.kind with
  | .nonStocked =>
    if quantity ≤ 0 then (.error .invalidBuyQuantity, p)
    else (.ok (p.price * quantity), p)
  | .limited maximum =>
    if quantity ≤ 0 then (.error .invalidBuyQuantity, p)
    else if maximum < quantity then
      (.error (.purchaseLimitExceeded quantity p.name maximum), p)
    else buyBase p quantity
  | .standard => buyBase p quantity

/-! ## Promotions (src/promotions.py) -/

/-- The three concrete `Promotion` subclasses with their fixed parameters. -/
inductive PromotionKind where
  | percentDiscount (percent : ℚ) : PromotionKind
  | secondHalfPrice : PromotionKind
  | thirdOneFree : PromotionKind
  deriving DecidableEq

/-- `apply_promotion` of each subclass (lines 40-70); `product.price` is
passed as `price`; Python `//` on integers is `Int.fdiv`. -/
def apply_promotion (pr : PromotionKind) (price : ℚ) (quantity : ℤ) : ℚ :=
  match pr with
  | .percentDiscount percent => price * quantity * (1 - percent / 100)
  | .secondHalfPrice =>
    let full_price_items := (quantity + 1).fdiv 2
    let half_price_items := quantity.fdiv 2
    full_price_items * price + half_price_items * price * (1 / 2)
  | .thirdOneFree =>
    let free_items := quantity.fdiv 3
    let paid_items := quantity - free_items
    paid_items * price

/-- `PercentDiscount.__init__` validation (lines 34-38). -/
def mkPercentDiscount (percent : ℚ) : Except Err PromotionKind :=
  if 0 ≤ percent ∧ percent ≤ 100 then .ok (.percentDiscount percent)
  else .error .invalidPercent

/-- Valid construction parameters of a promotion: `PercentDiscount` requires
`percent ∈ [0, 100]`; the other two variants have no parameters. -/
def promotionValid (pr : PromotionKind) : Prop :=
  match pr with
  | .percentDiscount percent => 0 ≤ percent ∧ percent ≤ 100
  | .secondHalfPrice => True
  | .thirdOneFree => True

/-! ## Store.order (src/store.py lines 85-138)

The shopping list is a Python list of arbitrary values; products are
aliased references into a heap modelled as a `List Product` indexed by
position. -/

/-- A dynamically-typed value appearing inside a shopping-list tuple:
a `Product` reference (index into the heap), an `int`, or anything else. -/
inductive PyVal where
  | prodRef (pid : Nat) : PyVal
  | intVal (n : ℤ) : PyVal
  | other : PyVal
  deriving DecidableEq

/-- A shopping-list entry: either a 2-tuple of values or some other shape. -/
inductive Item where
  | pair (a b : PyVal) : Item
  | nonPair : Item
  deriving DecidableEq

/-- One iteration of the loop in `Store.order` (lines 113-136): the shape,
type and positivity checks in source order, then `product.buy(quantity)`
with the result written back to the heap; a buy exception is re-raised
wrapped with the product's name. -/
def processItem (heap : List Product) (item : Item) : Except Err ℚ × List Product :=
  match item with
  | .nonPair => (.error .malformedItem, heap)
  | .pair a b =>
    match a with
    | .prodRef pid =>
      match heap[pid]? with
      | none => (.error .notAProduct, heap)
      | some p =>
        match b with
        | .intVal n =>
          if n ≤ 0 then (.error .invalidOrderQuantity, heap)
          else
            let r := buy p n
            let heap2 := heap.set pid r.2
            match r.1 with
            | .ok price => (.ok price, heap2)
            | .error e => (.error (.orderFailed p.name e), heap2)
        | _ => (.error .invalidOrderQuantity, heap)
    | _ => (.error .notAProduct, heap)

/-- The loop of `Store.order` with the running total `total_order_price`. -/
def orderAux (heap : List Product) (items : List Item) (acc : ℚ) :
    Except Err ℚ × List Product :=
  match items with
  | [] => (.ok acc, heap)
  | item :: rest =>
    match processItem heap item with
    | (.ok price, heap2) => orderAux heap2 rest (acc + price)
    | (.error e, heap2) => (.error e, heap2)

/-- `Store.order`: total starts at `0.0`. -/
def order (heap : List Product) (items : List Item) : Except Err ℚ × List Product :=
  orderAux heap items 0

/-- The validation error the loop raises for a given entry before any `buy`
is attempted, `none` when the entry passes validation (lines 113-125). -/
def entryError (heap : List Product) (item : Item) : Option Err :=
  match item with
  | .nonPair => some .malformedItem
  | .pair a b =>
    match a with
    | .prodRef pid =>
      match heap[pid]? with
      | none => some .notAProduct
      | some _ =>
        match b with
        | .intVal n => if n ≤ 0 then some .invalidOrderQuantity else none
        | _ => some .invalidOrderQuantity
    | _ => some .notAProduct

/-! ## Promotion-aware purchase (modelled from the spec) -/

/-- Modelled from the spec: the snapshot's `src/products.py` has no
`promotion` attribute, no `set_promotion`, and no promotion delegation in
`buy`, although `src/main.py` calls `set_promotion` and relies on the
promotion-aware `buy`; that revision of `products.py` is missing from the
snapshot. Following spec §4.1 step 5, the price is computed by delegating
to the promotion with the unit price and the requested quantity when one
is set, and is `unitPrice × quantity` otherwise. -/
def buyPrice (promotion : Option PromotionKind) (price : ℚ) (quantity : ℤ) : ℚ :=
  match promotion with
  | some pr => apply_promotion pr price quantity
  | none => price * quantity

/-- Modelled from the spec: body of the promotion-aware `Product.buy` —
steps 1, 3, 6 of spec §4.1 as in `buyBase`, step 5 via `buyPrice`. -/
def buyBaseWithPromotion (p : Product) (promotion : Option PromotionKind)
    (quantity : ℤ) : Except Err ℚ × Product :=
  if quantity ≤ 0 then (.error .invalidBuyQuantity, p)
  else if is_active p = false then (.error (.inactiveProduct p.name), p)
  else if p.quantity < quantity then
    (.error (.insufficientStock p.name p.quantity quantity), p)
  else
    let total_price := buyPrice promotion p.price quantity
    let r := set_quantity p (p.quantity - quantity)
    match r.1 with
    | .ok _ => (.ok total_price, r.2)
    | .error e => (.error e, r.2)

/-- Modelled from the spec: promotion-aware `buy` with the same per-class
dispatch as `buy`, the price computation replaced by `buyPrice`. -/
def buyWithPromotion (p : Product) (promotion : Option PromotionKind)
    (quantity : ℤ) : Except Err ℚ × Product :=
  match p.kind with
  | .nonStocked =>
    if quantity ≤ 0 then (.error .invalidBuyQuantity, p)
    else (.ok (buyPrice promotion p.price quantity), p)
  | .limited maximum =>
    if quantity ≤ 0 then (.error .invalidBuyQuantity, p)
    else if maximum < quantity then
      (.error (.purchaseLimitExceeded quantity p.name maximum), p)
    else buyBaseWithPromotion p promotion quantity
  | .standard => buyBaseWithPromotion p promotion quantity

/-! ## Operation sequences, for stating state invariants -/

/-- A state-mutating public operation on a single product whose activation
behaviour is derived from quantity: `set_quantity` or `buy`. -/
inductive Op where
  | setQ (n : ℤ) : Op
  | buyQ (q : ℤ) : Op
  deriving DecidableEq

/-- Object state after one operation (the Python object keeps whatever
state the method left when it returned or raised). -/
def applyOp (p : Product) (op : Op) : Product :=
  match op with
  | .setQ n => (set_quantity p n).2
  | .buyQ q => (buy p q).2

/-- Object state after a sequence of operations. -/
def runOps (p : Product) (ops : List Op) : Product := ops.foldl applyOp p

end BestBuy

namespace BestBuy

/-! ## Helper lemmas -/

lemma fdiv_two_eq (q : ℤ) : q.fdiv 2 = q / 2 := Int.fdiv_eq_ediv _ (by norm_num)

lemma fdiv_three_eq (q : ℤ) : q.fdiv 3 = q / 3 := Int.fdiv_eq_ediv _ (by norm_num)

lemma floor_intCast_div_two (q : ℤ) : ⌊(q : ℚ) / 2⌋ = q / 2 := by
  have h := Rat.floor_intCast_div_natCast q 2
  norm_num at h
  exact h

lemma floor_intCast_div_three (q : ℤ) : ⌊(q : ℚ) / 3⌋ = q / 3 := by
  have h := Rat.floor_intCast_div_natCast q 3
  norm_num at h
  exact h

lemma ceil_intCast_div_two (q : ℤ) : ⌈(q : ℚ) / 2⌉ = (q + 1) / 2 := by
  have h1 : ⌈(q : ℚ) / 2⌉ = -⌊-((q : ℚ) / 2)⌋ := by
    rw [Int.floor_neg]
    ring_nf
  have h2 : -((q : ℚ) / 2) = ((-q : ℤ) : ℚ) / 2 := by push_cast; ring
  rw [h1, h2, floor_intCast_div_two]
  omega

end BestBuy

namespace BestBuy

/-- C5: For every CappedProduct with per-purchase maximum `m` and every
requested quantity `q` with `0 < q` and `m < q`, `buy q` fails with the
purchase-limit error regardless of stock or active status, and the
product's state is unchanged. -/
theorem limited_buy_limit_checked_first (p : Product) (m q : ℤ)
    (hk : p.kind = .limited m) (hq : 0 < q) (hm : m < q) :
    buy p q = (.error (.purchaseLimitExceeded q p.name m), p) := by
  have h1 : ¬(q ≤ 0) := by omega
  simp [buy, hk, h1, hm]

theorem limited_buy_limit_checked_first_witness :
    buy ⟨"Shipping", 10, 250, true, .limited 1⟩ 2
      = (.error (.purchaseLimitExceeded 2 ("Shipping") 1),
         ⟨"Shipping", 10, 250, true, .limited 1⟩) :=
  limited_buy_limit_checked_first _ 1 2 rfl (by norm_num) (by norm_num)

end BestBuy

namespace BestBuy

/-- C8: For every UnlimitedProduct (`NonStockedProduct`), `set_quantity n`
is a no-op for any `n` (no error, no field changes), `buy q` for any
`q > 0` succeeds with price `price × q` without any active or stock check
and changes no field, and the constructor fixes `quantity` at 0. -/
theorem nonstocked_setq_buy_noop :
    (∀ p : Product, p.kind = .nonStocked →
      (∀ n : ℤ, set_quantity p n = (.ok (), p)) ∧
      (∀ q : ℤ, 0 < q → buy p q = (.ok (p.price * q), p))) ∧
    (∀ (name : String) (price : ℚ) (p0 : Product),
      mkNonStockedProduct name price = .ok p0 → p0.quantity = 0) := by
  constructor
  · intro p hk
    constructor
    · intro n
      simp [set_quantity, hk]
    · intro q hq
      have h1 : ¬(q ≤ 0) := by omega
      simp [buy, hk, h1]
  · intro name price p0 h
    unfold mkNonStockedProduct mkProduct at h
    split_ifs at h <;> simp [Except.map] at h
    exact h ▸ rfl

theorem nonstocked_setq_buy_noop_witness :
    set_quantity ⟨"Windows License", 125, 0, true, .nonStocked⟩ (-7)
        = (.ok (), ⟨"Windows License", 125, 0, true, .nonStocked⟩) ∧
      buy ⟨"Windows License", 125, 0, true, .nonStocked⟩ 4
        = (.ok (125 * 4), ⟨"Windows License", 125, 0, true, .nonStocked⟩) :=
  ⟨(nonstocked_setq_buy_noop.1 _ rfl).1 (-7),
   (nonstocked_setq_buy_noop.1 _ rfl).2 4 (by norm_num)⟩

/-- Closed-form of `buyBase` for stocked products (kind not nonStocked). -/
lemma buyBase_spec (p : Product) (q : ℤ) (hk : p.kind ≠ .nonStocked) :
    buyBase p q =
      if q ≤ 0 then (.error .invalidBuyQuantity, p)
      else if p.active = false then (.error (.inactiveProduct p.name), p)
      else if p.quantity < q then
        (.error (.insufficientStock p.name p.quantity q), p)
      else (.ok (p.price * q),
        { p with quantity := p.quantity - q,
                 active := decide (0 < p.quantity - q) }) := by
  cases hpk : p.kind
  case nonStocked => exact absurd hpk hk
  all_goals
    simp only [buyBase, set_quantity, is_active, hpk]
    split_ifs <;> first | rfl | omega

/-- C4: For every stocked product (standard or capped), a successful
`buy q` decreases `quantity` by exactly `q` and never leaves it negative,
and a failed `buy q` (for any reason) leaves the product unchanged. -/
theorem stocked_buy_atomic (p : Product)
    (hk : p.kind = .standard ∨ ∃ m, p.kind = .limited m) :
    (∀ (q : ℤ) (t : ℚ) (p' : Product), buy p q = (.ok t, p') →
      p'.quantity = p.quantity - q ∧ 0 ≤ p'.quantity) ∧
    (∀ (q : ℤ) (e : Err) (p' : Product), buy p q = (.error e, p') → p' = p) := by
  have hk' : p.kind ≠ .nonStocked := by
    rcases hk with h | ⟨m, h⟩ <;> simp [h]
  have hbuy : ∀ q : ℤ, buy p q = buyBase p q ∨
      buy p q = (.error .invalidBuyQuantity, p) ∨
      ∃ m, buy p q = (.error (.purchaseLimitExceeded q p.name m), p) := by
    intro q
    rcases hk with h | ⟨m, h⟩
    · left; simp [buy, h]
    · unfold buy; rw [h]
      by_cases h1 : q ≤ 0
      · right; left; simp [h1]
      · by_cases h2 : m < q
        · right; right; exact ⟨m, by simp [h1, h2]⟩
        · left; simp [h1, h2]
  constructor
  · intro q t p' hb
    rcases hbuy q with h | h | ⟨m, h⟩ <;> rw [h] at hb <;> try simp at hb
    rw [buyBase_spec p q hk'] at hb
    split_ifs at hb with h1 h2 h3 <;> simp at hb
    obtain ⟨ht, hp⟩ := hb
    subst hp
    refine ⟨rfl, ?_⟩
    show 0 ≤ p.quantity - q
    omega
  · intro q e p' hb
    rcases hbuy q with h | h | ⟨m, h⟩ <;> rw [h] at hb
    · rw [buyBase_spec p q hk'] at hb
      split_ifs at hb with h1 h2 h3 <;> simp at hb <;> exact hb.2.symm
    · simp at hb; exact hb.2.symm
    · simp at hb; exact hb.2.symm

theorem stocked_buy_atomic_witness :
    ((⟨"Widget", 10, 5, true, .standard⟩ : Product).kind = ProductKind.standard ∨
      ∃ m, (⟨"Widget", 10, 5, true, .standard⟩ : Product).kind = .limited m) ∧
    (∀ (t : ℚ) (p' : Product),
      buy ⟨"Widget", 10, 5, true, .standard⟩ 3 = (.ok t, p') →
        p'.quantity = 5 - 3 ∧ 0 ≤ p'.quantity) :=
  ⟨Or.inl rfl,
   fun t p' hb => (stocked_buy_atomic _ (Or.inl rfl)).1 3 t p' hb⟩

end BestBuy

namespace BestBuy

/-- C6: The three promotion variants compute, for unit price `u` and
positive quantity `q`: `u × q × (1 − percent/100)`;
`⌈q/2⌉` full-price units plus `⌊q/2⌋` half-price units;
`(q − ⌊q/3⌋) × u`; and in particular the three concrete examples
`SecondHalfPrice(10,3) = 25`, `ThirdOneFree(10,3) = 20`,
`PercentDiscount(30%)(10,1) = 7`. -/
theorem promotion_formulas :
    (∀ (percent u : ℚ) (q : ℤ), 0 < q →
      apply_promotion (.percentDiscount percent) u q = u * q * (1 - percent / 100) ∧
      apply_promotion .secondHalfPrice u q
        = ⌈(q : ℚ) / 2⌉ * u + ⌊(q : ℚ) / 2⌋ * (u / 2) ∧
      apply_promotion .thirdOneFree u q = ((q : ℚ) - ⌊(q : ℚ) / 3⌋) * u) ∧
    apply_promotion .secondHalfPrice 10 3 = 25 ∧
    apply_promotion .thirdOneFree 10 3 = 20 ∧
    apply_promotion (.percentDiscount 30) 10 1 = 7 := by
  refine ⟨fun percent u q hq => ⟨rfl, ?_, ?_⟩, ?_, ?_, ?_⟩
  · simp only [apply_promotion]
    rw [fdiv_two_eq, fdiv_two_eq, ceil_intCast_div_two, floor_intCast_div_two]
    ring
  · simp only [apply_promotion]
    rw [fdiv_three_eq, floor_intCast_div_three]
    push_cast
    ring
  · simp only [apply_promotion]
    rw [fdiv_two_eq, fdiv_two_eq]
    norm_num
  · simp only [apply_promotion]
    rw [fdiv_three_eq]
    norm_num
  · simp only [apply_promotion]
    norm_num

theorem promotion_formulas_witness :
    apply_promotion .secondHalfPrice 10 3
      = ⌈((3 : ℤ) : ℚ) / 2⌉ * 10 + ⌊((3 : ℤ) : ℚ) / 2⌋ * (10 / 2) :=
  ((promotion_formulas.1 30 10 3 (by norm_num)).2).1

/-- C7: For every promotion variant with valid construction parameters,
every unit price `u ≥ 0` and every positive quantity `q`, the applied
promotion's result is non-negative and never exceeds `u × q`. -/
theorem promotion_no_surcharge (pr : PromotionKind) (u : ℚ) (q : ℤ)
    (hv : promotionValid pr) (hu : 0 ≤ u) (hq : 0 < q) :
    0 ≤ apply_promotion pr u q ∧ apply_promotion pr u q ≤ u * q := by
  have hq0 : (0 : ℚ) ≤ (q : ℚ) := by exact_mod_cast le_of_lt hq
  have huq : (0 : ℚ) ≤ u * q := mul_nonneg hu hq0
  cases pr with
  | percentDiscount percent =>
    obtain ⟨h0, h100⟩ := hv
    simp only [apply_promotion]
    constructor
    · have hm : (0 : ℚ) ≤ 1 - percent / 100 := by linarith
      have := mul_nonneg (mul_nonneg hu hq0) hm
      linarith [this]
    · nlinarith [huq]
  | secondHalfPrice =>
    simp only [apply_promotion]
    rw [fdiv_two_eq, fdiv_two_eq]
    have h1 : (q + 1) / 2 + q / 2 = q := by omega
    have h2 : 0 ≤ q / 2 := by omega
    have h3 : 0 ≤ (q + 1) / 2 := by omega
    have hc1 : (((q + 1) / 2 : ℤ) : ℚ) + ((q / 2 : ℤ) : ℚ) = (q : ℚ) := by
      exact_mod_cast h1
    have hc2 : (0 : ℚ) ≤ ((q / 2 : ℤ) : ℚ) := by exact_mod_cast h2
    have hc3 : (0 : ℚ) ≤ (((q + 1) / 2 : ℤ) : ℚ) := by exact_mod_cast h3
    constructor
    · have ha := mul_nonneg hc3 hu
      have hb := mul_nonneg (mul_nonneg hc2 hu) (by norm_num : (0 : ℚ) ≤ 1 / 2)
      linarith
    · nlinarith [mul_nonneg hc2 hu]
  | thirdOneFree =>
    simp only [apply_promotion]
    rw [fdiv_three_eq]
    have h1 : 0 ≤ q / 3 := by omega
    have h2 : q / 3 ≤ q := by omega
    have hc1 : (0 : ℚ) ≤ ((q / 3 : ℤ) : ℚ) := by exact_mod_cast h1
    have hc2 : ((q / 3 : ℤ) : ℚ) ≤ (q : ℚ) := by exact_mod_cast h2
    constructor
    · push_cast
      nlinarith [mul_nonneg hc1 hu]
    · push_cast
      nlinarith [mul_nonneg hc1 hu]

theorem promotion_no_surcharge_witness :
    0 ≤ apply_promotion (.percentDiscount 30) 10 3 ∧
      apply_promotion (.percentDiscount 30) 10 3 ≤ 10 * (3 : ℤ) :=
  promotion_no_surcharge (.percentDiscount 30) 10 3
    (by show (0 : ℚ) ≤ 30 ∧ (30 : ℚ) ≤ 100; norm_num) (by norm_num) (by norm_num)

end BestBuy

namespace BestBuy

lemma buyBaseWithPromotion_ok_price (p : Product) (promo : Option PromotionKind)
    (q : ℤ) (t : ℚ) (p' : Product)
    (h : buyBaseWithPromotion p promo q = (.ok t, p')) :
    t = buyPrice promo p.price q := by
  unfold buyBaseWithPromotion at h
  dsimp only at h
  split_ifs at h with h1 h2 h3
  · exact absurd h (by simp)
  · exact absurd h (by simp)
  · exact absurd h (by simp)
  · cases hres : (set_quantity p (p.quantity - q)).1 with
    | ok u => rw [hres] at h; simp at h; exact h.1.symm
    | error e => rw [hres] at h; exact absurd h (by simp)

/-- C1: A successful promotion-aware `buy` returns the price delegated to
the promotion with the product's unit price and the requested quantity
when a promotion is set, and `unitPrice × quantity` when none is set. -/
theorem buy_delegates_to_promotion (p : Product) (promo : Option PromotionKind)
    (q : ℤ) (t : ℚ) (p' : Product)
    (h : buyWithPromotion p promo q = (.ok t, p')) :
    (∀ pr, promo = some pr → t = apply_promotion pr p.price q) ∧
    (promo = none → t = p.price * q) := by
  suffices ht : t = buyPrice promo p.price q by
    constructor
    · intro pr hpr
      subst hpr
      exact ht
    · intro hn
      subst hn
      exact ht
  obtain ⟨nm, pc, qty, act, k⟩ := p
  cases k with
  | nonStocked =>
    simp only [buyWithPromotion] at h
    split_ifs at h with h1
    · exact absurd h (by simp)
    · simp at h
      exact h.1.symm
  | limited m =>
    simp only [buyWithPromotion] at h
    split_ifs at h with h1 h2
    · exact absurd h (by simp)
    · exact absurd h (by simp)
    · exact buyBaseWithPromotion_ok_price _ promo q t p' h
  | standard =>
    simp only [buyWithPromotion] at h
    exact buyBaseWithPromotion_ok_price _ promo q t p' h

theorem buy_delegates_to_promotion_witness :
    (∀ pr, (some PromotionKind.secondHalfPrice) = some pr →
      (2175 : ℚ) = apply_promotion pr (1450 : ℚ) 2) ∧
    ((some PromotionKind.secondHalfPrice) = none → (2175 : ℚ) = (1450 : ℚ) * 2) := by
  have h : buyWithPromotion ⟨"MacBook Air M2", 1450, 100, true, .standard⟩
      (some .secondHalfPrice) 2
      = (.ok 2175, ⟨"MacBook Air M2", 1450, 98, true, .standard⟩) := by
    simp only [buyWithPromotion, buyBaseWithPromotion, set_quantity, is_active,
      buyPrice, apply_promotion]
    norm_num [fdiv_two_eq]
  exact buy_delegates_to_promotion _ (some .secondHalfPrice) 2 2175 _ h

end BestBuy

namespace BestBuy

lemma mkProduct_ok (name : String) (price : ℚ) (qty : ℤ) (p : Product)
    (h : mkProduct name price qty = .ok p) :
    p.active = decide (0 < p.quantity) ∧ p.kind = .standard := by
  unfold mkProduct at h
  split_ifs at h <;> simp at h
  exact ⟨by rw [← h], by rw [← h]⟩

lemma mkLimitedProduct_ok (name : String) (price : ℚ) (qty maximum : ℤ)
    (p : Product) (h : mkLimitedProduct name price qty maximum = .ok p) :
    p.active = decide (0 < p.quantity) ∧ p.kind = .limited maximum := by
  unfold mkLimitedProduct mkProduct at h
  split_ifs at h <;> simp [Except.bind] at h
  exact ⟨by rw [← h], by rw [← h]⟩

lemma mkNonStockedProduct_ok (name : String) (price : ℚ) (p : Product)
    (h : mkNonStockedProduct name price = .ok p) :
    p.active = true ∧ p.kind = .nonStocked := by
  unfold mkNonStockedProduct mkProduct at h
  split_ifs at h <;> simp [Except.map] at h
  exact ⟨by rw [← h], by rw [← h]⟩

lemma applyOp_stocked_inv (p : Product) (op : Op)
    (hk : p.kind ≠ .nonStocked) (hinv : p.active = decide (0 < p.quantity)) :
    (applyOp p op).kind = p.kind ∧
    (applyOp p op).active = decide (0 < (applyOp p op).quantity) := by
  cases op with
  | setQ n =>
    simp only [applyOp, set_quantity]
    cases hpk : p.kind
    case nonStocked => exact absurd hpk hk
    all_goals
      split_ifs with hc
      all_goals
        first
          | exact ⟨hpk, hinv⟩
          | exact ⟨hpk, rfl⟩
          | exact ⟨rfl, rfl⟩
          | exact ⟨rfl, hinv⟩
  | buyQ q =>
    simp only [applyOp]
    cases hpk : p.kind
    case nonStocked => exact absurd hpk hk
    case standard =>
      have hb := buyBase_spec p q (by rw [hpk]; simp)
      simp only [buy, hpk]
      rw [hb]
      split_ifs
      all_goals
        first
          | exact ⟨hpk, hinv⟩
          | exact ⟨hpk, rfl⟩
          | exact ⟨rfl, rfl⟩
          | exact ⟨rfl, hinv⟩
    case limited m =>
      have hb := buyBase_spec p q (by rw [hpk]; simp)
      simp only [buy, hpk]
      rw [hb]
      split_ifs
      all_goals
        first
          | exact ⟨hpk, hinv⟩
          | exact ⟨hpk, rfl⟩
          | exact ⟨rfl, rfl⟩
          | exact ⟨rfl, hinv⟩

lemma applyOp_nonstocked (p : Product) (op : Op) (hk : p.kind = .nonStocked) :
    applyOp p op = p := by
  cases op with
  | setQ n => simp [applyOp, set_quantity, hk]
  | buyQ q =>
    simp only [applyOp, buy, hk]
    split_ifs <;> rfl

lemma runOps_stocked_inv (ops : List Op) (p : Product)
    (hk : p.kind ≠ .nonStocked) (hinv : p.active = decide (0 < p.quantity)) :
    (runOps p ops).active = decide (0 < (runOps p ops).quantity) := by
  induction ops generalizing p with
  | nil => exact hinv
  | cons op rest ih =>
    have h := applyOp_stocked_inv p op hk hinv
    have : runOps p (op :: rest) = runOps (applyOp p op) rest := rfl
    rw [this]
    exact ih (applyOp p op) (by rw [h.1]; exact hk) h.2

lemma runOps_nonstocked (ops : List Op) (p : Product)
    (hk : p.kind = .nonStocked) : runOps p ops = p := by
  induction ops generalizing p with
  | nil => rfl
  | cons op rest ih =>
    have : runOps p (op :: rest) = runOps (applyOp p op) rest := rfl
    rw [this, applyOp_nonstocked p op hk]
    exact ih p hk

/-- C2 counterexample: a freshly constructed standard product with
`quantity = 5` is deactivated by the public operation `deactivate`, after
which `is_active` is `false` while `quantity` is still `5 > 0` — so
`is_active ⟺ quantity > 0` does not hold at every observation point after
arbitrary public operations. -/
theorem active_flag_counterexample :
    ((mkProduct ("Widget") 10 5).map fun p =>
        (is_active (deactivate p), (deactivate p).quantity)) = .ok (false, 5) ∧
    (0 : ℤ) < 5 := by
  constructor
  · rfl
  · norm_num

/-- C2 amended: at every observation point after construction and any
sequence of quantity-derived operations (`set_quantity` and `buy`; the
explicit `activate`/`deactivate` overrides excluded), a StandardProduct or
CappedProduct satisfies `is_active ⟺ quantity > 0`, and an
UnlimitedProduct always satisfies `is_active = true`. -/
theorem active_iff_quantity_pos_derived :
    (∀ (name : String) (price : ℚ) (qty : ℤ) (p : Product) (ops : List Op),
      mkProduct name price qty = .ok p →
        (is_active (runOps p ops) = true ↔ 0 < (runOps p ops).quantity)) ∧
    (∀ (name : String) (price : ℚ) (qty maximum : ℤ) (p : Product) (ops : List Op),
      mkLimitedProduct name price qty maximum = .ok p →
        (is_active (runOps p ops) = true ↔ 0 < (runOps p ops).quantity)) ∧
    (∀ (name : String) (price : ℚ) (p : Product) (ops : List Op),
      mkNonStockedProduct name price = .ok p →
        is_active (runOps p ops) = true) := by
  refine ⟨?_, ?_, ?_⟩
  · intro name price qty p ops h
    obtain ⟨hinv, hkind⟩ := mkProduct_ok name price qty p h
    have := runOps_stocked_inv ops p (by rw [hkind]; simp) hinv
    simp [is_active, this]
  · intro name price qty maximum p ops h
    obtain ⟨hinv, hkind⟩ := mkLimitedProduct_ok name price qty maximum p h
    have := runOps_stocked_inv ops p (by rw [hkind]; simp) hinv
    simp [is_active, this]
  · intro name price p ops h
    obtain ⟨hact, hkind⟩ := mkNonStockedProduct_ok name price p h
    rw [runOps_nonstocked ops p hkind]
    simp [is_active, hact]

theorem active_iff_quantity_pos_derived_witness :
    mkProduct ("Widget") 10 5 = .ok ⟨"Widget", 10, 5, true, .standard⟩ ∧
    (is_active (runOps ⟨"Widget", 10, 5, true, .standard⟩ [.buyQ 5]) = true ↔
      0 < (runOps ⟨"Widget", 10, 5, true, .standard⟩ [.buyQ 5]).quantity) :=
  ⟨rfl, active_iff_quantity_pos_derived.1 ("Widget") 10 5 _ [.buyQ 5] rfl⟩

end BestBuy

namespace BestBuy

/-- C9 counterexample: a deactivated CappedProduct with stock 5 and
per-purchase maximum 1 rejects `buy 2` with the purchase-limit error, not
the inactive-product error — the cap is checked before the active flag. -/
theorem capped_inactive_counterexample :
    ((mkLimitedProduct ("Shipping") 10 5 1).map fun p => (buy (deactivate p) 2).1)
      = .ok (.error (.purchaseLimitExceeded 2 ("Shipping") 1)) ∧
    Err.purchaseLimitExceeded 2 ("Shipping") 1 ≠ Err.inactiveProduct ("Shipping") := by
  exact ⟨rfl, by simp⟩

/-- C9 amended: for a stocked product with positive quantity, after
`deactivate` the product reports inactive and `buy q` fails with the
inactive-product error leaving the state unchanged, for every `q > 0`
that (for a CappedProduct) does not exceed the per-purchase maximum;
after a subsequent `activate`, a purchase within stock succeeds —
purchasability is decided by the stored `active` flag. -/
theorem deactivate_blocks_buy (p : Product) (q : ℤ)
    (hq : 0 < q) (hqty : 0 < p.quantity)
    (hk : p.kind = .standard ∨ ∃ m, p.kind = .limited m ∧ q ≤ m) :
    is_active (deactivate p) = false ∧
    buy (deactivate p) q = (.error (.inactiveProduct p.name), deactivate p) ∧
    is_active (activate (deactivate p)) = true ∧
    (q ≤ p.quantity → (buy (activate (deactivate p)) q).1 = .ok (p.price * q)) := by
  have hkd : (deactivate p).kind ≠ .nonStocked := by
    show p.kind ≠ .nonStocked
    rcases hk with h | ⟨m, h, _⟩ <;> simp [h]
  have hka : (activate (deactivate p)).kind ≠ .nonStocked := hkd
  have hbd := buyBase_spec (deactivate p) q hkd
  have hba := buyBase_spec (activate (deactivate p)) q hka
  have hq' : ¬(q ≤ 0) := by omega
  have hdeq : buyBase (deactivate p) q
      = (.error (.inactiveProduct p.name), deactivate p) := by
    rw [hbd, if_neg hq', if_pos (show (deactivate p).active = false from rfl)]
    rfl
  refine ⟨rfl, ?_, rfl, ?_⟩
  · rcases hk with h | ⟨m, h, hqm⟩
    · have hstd : (deactivate p).kind = .standard := h
      simp only [buy, hstd]
      exact hdeq
    · have hlim : (deactivate p).kind = .limited m := h
      simp only [buy, hlim]
      rw [if_neg hq', if_neg (by omega)]
      exact hdeq
  · intro hstock
    have hokbase : buyBase (activate (deactivate p)) q
        = (.ok ((activate (deactivate p)).price * q),
           { name := (activate (deactivate p)).name,
             price := (activate (deactivate p)).price,
             quantity := (activate (deactivate p)).quantity - q,
             active := decide (0 < (activate (deactivate p)).quantity - q),
             kind := (activate (deactivate p)).kind }) := by
      rw [hba, if_neg hq',
        if_neg (show ¬((activate (deactivate p)).active = false) by simp [activate]),
        if_neg (show ¬((activate (deactivate p)).quantity < q) from by
          show ¬(p.quantity < q)
          omega)]
    rcases hk with h | ⟨m, h, hqm⟩
    · have hstd : (activate (deactivate p)).kind = .standard := h
      simp only [buy, hstd]
      rw [hokbase]
      rfl
    · have hlim : (activate (deactivate p)).kind = .limited m := h
      simp only [buy, hlim]
      rw [if_neg hq', if_neg (by omega), hokbase]
      rfl

theorem deactivate_blocks_buy_witness :
    is_active (deactivate ⟨"Widget", 10, 5, true, .standard⟩) = false ∧
    buy (deactivate ⟨"Widget", 10, 5, true, .standard⟩) 3
      = (.error (.inactiveProduct ("Widget")),
         deactivate ⟨"Widget", 10, 5, true, .standard⟩) ∧
    is_active (activate (deactivate ⟨"Widget", 10, 5, true, .standard⟩)) = true ∧
    (buy (activate (deactivate ⟨"Widget", 10, 5, true, .standard⟩)) 3).1
      = .ok (10 * 3) := by
  have h := deactivate_blocks_buy ⟨"Widget", 10, 5, true, .standard⟩ 3
    (by norm_num) (by norm_num) (Or.inl rfl)
  exact ⟨h.1, h.2.1, h.2.2.1, h.2.2.2 (by norm_num)⟩

end BestBuy

namespace BestBuy

lemma list_set_self {α : Type} (l : List α) (i : ℕ) (a : α)
    (h : l[i]? = some a) : l.set i a = l := by
  induction l generalizing i with
  | nil => simp at h
  | cons x xs ih =>
    cases i with
    | zero =>
      simp only [List.getElem?_cons_zero, Option.some.injEq] at h
      simp [List.set, h]
    | succ j =>
      simp only [List.getElem?_cons_succ] at h
      simp [List.set, ih j h]

lemma buy_error_state (p : Product) (q : ℤ) (e : Err)
    (h : (buy p q).1 = .error e) : (buy p q).2 = p := by
  cases hpk : p.kind with
  | nonStocked =>
    simp only [buy, hpk]
    split_ifs <;> rfl
  | standard =>
    have hb := buyBase_spec p q (by rw [hpk]; simp)
    simp only [buy, hpk] at h ⊢
    rw [hb] at h ⊢
    split_ifs at h ⊢ <;> rfl
  | limited m =>
    have hb := buyBase_spec p q (by rw [hpk]; simp)
    simp only [buy, hpk] at h ⊢
    rw [hb] at h ⊢
    split_ifs at h ⊢ <;> rfl

lemma buy_ok_price (p : Product) (q : ℤ) (t : ℚ)
    (h : (buy p q).1 = .ok t) : t = p.price * q ∧ 0 < q := by
  cases hpk : p.kind with
  | nonStocked =>
    simp only [buy, hpk] at h
    split_ifs at h with h1
    simp at h
    exact ⟨h.symm, by omega⟩
  | standard =>
    have hb := buyBase_spec p q (by rw [hpk]; simp)
    simp only [buy, hpk] at h
    rw [hb] at h
    split_ifs at h with h1 h2 h3
    simp at h
    exact ⟨h.symm, by omega⟩
  | limited m =>
    have hb := buyBase_spec p q (by rw [hpk]; simp)
    simp only [buy, hpk] at h
    rw [hb] at h
    split_ifs at h with h1 h2 h3 h4
    simp at h
    exact ⟨h.symm, by omega⟩

lemma buy_price_field (p : Product) (q : ℤ) : (buy p q).2.price = p.price := by
  cases hpk : p.kind with
  | nonStocked =>
    simp only [buy, hpk]
    split_ifs <;> rfl
  | standard =>
    have hb := buyBase_spec p q (by rw [hpk]; simp)
    simp only [buy, hpk]
    rw [hb]
    split_ifs <;> rfl
  | limited m =>
    have hb := buyBase_spec p q (by rw [hpk]; simp)
    simp only [buy, hpk]
    rw [hb]
    split_ifs <;> rfl

lemma orderAux_append (items1 : List Item) (heap : List Product)
    (items2 : List Item) (acc : ℚ) :
    orderAux heap (items1 ++ items2) acc =
      match orderAux heap items1 acc with
      | (.ok t, h) => orderAux h items2 t
      | (.error e, h) => (.error e, h) := by
  induction items1 generalizing heap acc with
  | nil => simp [orderAux]
  | cons it rest ih =>
    simp only [List.cons_append, orderAux]
    rcases hpi : processItem heap it with ⟨res, heap2⟩
    cases res with
    | ok price =>
      dsimp only
      exact ih heap2 (acc + price)
    | error e =>
      dsimp only

end BestBuy

namespace BestBuy

lemma processItem_ok (heap : List Product) (item : Item) (price : ℚ)
    (heap2 : List Product) (h : processItem heap item = (.ok price, heap2)) :
    ∃ pid p n, heap[pid]? = some p ∧ (buy p n).1 = .ok price ∧
      heap2 = heap.set pid (buy p n).2 := by
  cases item with
  | nonPair => exact absurd h (by simp [processItem])
  | pair a b =>
    cases a with
    | intVal k => exact absurd h (by simp [processItem])
    | other => exact absurd h (by simp [processItem])
    | prodRef pid =>
      cases hp : heap[pid]? with
      | none =>
        cases b <;> simp only [processItem, hp] at h <;> exact absurd h (by simp)
      | some p =>
        cases b with
        | prodRef k =>
          simp only [processItem, hp] at h
          exact absurd h (by simp)
        | other =>
          simp only [processItem, hp] at h
          exact absurd h (by simp)
        | intVal n =>
          simp only [processItem, hp] at h
          split_ifs at h with hn
          · exact absurd h (by simp)
          cases hbr : (buy p n).1 with
          | error e => rw [hbr] at h; exact absurd h (by simp)
          | ok v =>
            rw [hbr] at h
            simp at h
            exact ⟨pid, p, n, hp, by rw [hbr, h.1], h.2.symm⟩

lemma heap_prices_nonneg_set (heap : List Product) (pid : ℕ) (p : Product)
    (q : ℤ) (hp : heap[pid]? = some p) (hnn : ∀ x ∈ heap, 0 ≤ x.price) :
    ∀ x ∈ heap.set pid (buy p q).2, 0 ≤ x.price := by
  intro x hx
  rcases List.mem_or_eq_of_mem_set hx with hmem | heq
  · exact hnn x hmem
  · rw [heq, buy_price_field]
    exact hnn p (List.getElem?_mem hp)

lemma orderAux_ok_nonneg (items : List Item) :
    ∀ (heap h' : List Product) (acc t : ℚ),
      (∀ p ∈ heap, 0 ≤ p.price) → 0 ≤ acc →
      orderAux heap items acc = (.ok t, h') → 0 ≤ t := by
  induction items with
  | nil =>
    intro heap h' acc t hp hacc h
    simp [orderAux] at h
    rw [← h.1]
    exact hacc
  | cons it rest ih =>
    intro heap h' acc t hp hacc h
    rw [orderAux] at h
    rcases hpi : processItem heap it with ⟨res, heap2⟩
    rw [hpi] at h
    cases res with
    | error e => exact absurd h (by simp)
    | ok price =>
      obtain ⟨pid, p, n, hget, hbuy, hset⟩ := processItem_ok heap it price heap2 hpi
      obtain ⟨hval, hq⟩ := buy_ok_price p n price hbuy
      have hprice : (0 : ℚ) ≤ price := by
        rw [hval]
        have h0 : (0 : ℚ) ≤ p.price := hp p (List.getElem?_mem hget)
        have h1 : (0 : ℚ) ≤ (n : ℚ) := by exact_mod_cast le_of_lt hq
        exact mul_nonneg h0 h1
      have hp2 : ∀ x ∈ heap2, 0 ≤ x.price := by
        rw [hset]
        exact heap_prices_nonneg_set heap pid p n hget hp
      exact ih heap2 h' (acc + price) t hp2 (by linarith) h

lemma entryError_processItem (heap : List Product) (item : Item) (e : Err)
    (h : entryError heap item = some e) :
    processItem heap item = (.error e, heap) ∧
    ∀ nm e2, e ≠ .orderFailed nm e2 := by
  cases item with
  | nonPair =>
    simp [entryError] at h
    subst h
    exact ⟨rfl, fun nm e2 hc => Err.noConfusion hc⟩
  | pair a b =>
    cases a with
    | intVal k =>
      simp [entryError] at h
      subst h
      exact ⟨rfl, fun nm e2 hc => Err.noConfusion hc⟩
    | other =>
      simp [entryError] at h
      subst h
      exact ⟨rfl, fun nm e2 hc => Err.noConfusion hc⟩
    | prodRef pid =>
      cases hp : heap[pid]? with
      | none =>
        cases b <;>
          · simp only [entryError, hp, Option.some.injEq] at h
            subst h
            exact ⟨by simp only [processItem, hp], fun nm e2 hc => Err.noConfusion hc⟩
      | some p =>
        cases b with
        | prodRef k =>
          simp only [entryError, hp, Option.some.injEq] at h
          subst h
          exact ⟨by simp only [processItem, hp], fun nm e2 hc => Err.noConfusion hc⟩
        | other =>
          simp only [entryError, hp, Option.some.injEq] at h
          subst h
          exact ⟨by simp only [processItem, hp], fun nm e2 hc => Err.noConfusion hc⟩
        | intVal n =>
          simp only [entryError, hp] at h
          split_ifs at h with hn
          simp only [Option.some.injEq] at h
          subst h
          refine ⟨?_, fun nm e2 hc => Err.noConfusion hc⟩
          simp only [processItem, hp]
          simp [hn]

end BestBuy

namespace BestBuy

/-- C3: `Store.order` processes its item list strictly in the given order,
summing the prices returned by each `buy`; if a `buy` fails on an item,
all earlier items' purchases and quantity decrements are kept (the heap
stays as the prefix left it — no rollback), no later item is processed,
and the raised error wraps the failing product's name; a fully successful
order returns a non-negative total. -/
theorem order_sequential_no_rollback :
    (∀ (heap : List Product) (pre rest : List Item) (t : ℚ) (h : List Product),
      order heap pre = (.ok t, h) →
        order heap (pre ++ rest) = orderAux h rest t) ∧
    (∀ (heap : List Product) (pre rest : List Item) (e : Err) (h : List Product),
      order heap pre = (.error e, h) →
        order heap (pre ++ rest) = (.error e, h)) ∧
    (∀ (heap heapPre : List Product) (pre rest : List Item) (pid : ℕ)
        (q : ℤ) (p : Product) (t : ℚ) (e : Err),
      order heap pre = (.ok t, heapPre) →
      heapPre[pid]? = some p →
      0 < q →
      (buy p q).1 = .error e →
      order heap (pre ++ Item.pair (.prodRef pid) (.intVal q) :: rest)
        = (.error (.orderFailed p.name e), heapPre)) ∧
    (∀ (heap h' : List Product) (items : List Item) (t : ℚ),
      (∀ p ∈ heap, 0 ≤ p.price) →
      order heap items = (.ok t, h') → 0 ≤ t) := by
  have happ : ∀ (heap : List Product) (pre rest : List Item),
      order heap (pre ++ rest) =
        match order heap pre with
        | (.ok t, h) => orderAux h rest t
        | (.error e, h) => (.error e, h) :=
    fun heap pre rest => orderAux_append pre heap rest 0
  refine ⟨?_, ?_, ?_, ?_⟩
  · intro heap pre rest t h hpre
    rw [happ heap pre rest, hpre]
  · intro heap pre rest e h hpre
    rw [happ heap pre rest, hpre]
  · intro heap heapPre pre rest pid q p t e hpre hget hq hbuy
    have h1 : order heap (pre ++ Item.pair (.prodRef pid) (.intVal q) :: rest)
        = orderAux heapPre (Item.pair (.prodRef pid) (.intVal q) :: rest) t := by
      rw [happ, hpre]
    have hpi : processItem heapPre (Item.pair (.prodRef pid) (.intVal q))
        = (.error (.orderFailed p.name e), heapPre) := by
      simp only [processItem, hget]
      rw [if_neg (by omega : ¬(q ≤ 0)), hbuy]
      rw [buy_error_state p q e hbuy, list_set_self heapPre pid p hget]
    rw [h1, orderAux, hpi]
  · intro heap h' items t hp h
    exact orderAux_ok_nonneg items heap h' 0 t hp le_rfl h

theorem order_sequential_no_rollback_witness :
    order [⟨"A", 10, 1, true, .standard⟩, ⟨"B", 10, 1, true, .standard⟩]
        ([Item.pair (.prodRef 0) (.intVal 1)]
          ++ Item.pair (.prodRef 1) (.intVal 5) :: [])
      = (.error (.orderFailed ("B") (.insufficientStock ("B") 1 5)),
         [⟨"A", 10, 0, false, .standard⟩, ⟨"B", 10, 1, true, .standard⟩]) := by
  have hpre : order [⟨"A", 10, 1, true, .standard⟩, ⟨"B", 10, 1, true, .standard⟩]
      [Item.pair (.prodRef 0) (.intVal 1)]
      = (.ok 10, [⟨"A", 10, 0, false, .standard⟩, ⟨"B", 10, 1, true, .standard⟩]) := by
    simp [order, orderAux, processItem, buy, buyBase, set_quantity, is_active]
  exact order_sequential_no_rollback.2.2.1
    [⟨"A", 10, 1, true, .standard⟩, ⟨"B", 10, 1, true, .standard⟩]
    [⟨"A", 10, 0, false, .standard⟩, ⟨"B", 10, 1, true, .standard⟩]
    [Item.pair (.prodRef 0) (.intVal 1)] [] 1 5
    ⟨"B", 10, 1, true, .standard⟩ 10 (.insufficientStock ("B") 1 5)
    hpre rfl (by norm_num) rfl

/-- C10: `Store.order` validates an entry's shape and quantity only when
that entry is reached: with a valid successful prefix, a malformed entry
makes the order fail with the validation error itself (not wrapped in the
order-failed error), and the heap keeps the prefix's purchases. -/
theorem order_lazy_validation (heap : List Product) (pre : List Item)
    (bad : Item) (rest : List Item) (t : ℚ) (heapPre : List Product) (e : Err)
    (hpre : order heap pre = (.ok t, heapPre))
    (hbad : entryError heapPre bad = some e) :
    order heap (pre ++ bad :: rest) = (.error e, heapPre) ∧
    ∀ nm e2, e ≠ .orderFailed nm e2 := by
  obtain ⟨hpi, hnw⟩ := entryError_processItem heapPre bad e hbad
  refine ⟨?_, hnw⟩
  have happ : order heap (pre ++ bad :: rest) =
      match order heap pre with
      | (.ok t2, h) => orderAux h (bad :: rest) t2
      | (.error e2, h) => (.error e2, h) :=
    orderAux_append pre heap (bad :: rest) 0
  have h1 : order heap (pre ++ bad :: rest) = orderAux heapPre (bad :: rest) t := by
    rw [happ, hpre]
  rw [h1, orderAux, hpi]

theorem order_lazy_validation_witness :
    order [⟨"A", 10, 1, true, .standard⟩]
        ([Item.pair (.prodRef 0) (.intVal 1)]
          ++ Item.pair (.prodRef 0) (.intVal 0) :: [])
      = (.error .invalidOrderQuantity, [⟨"A", 10, 0, false, .standard⟩]) ∧
    ∀ nm e2, Err.invalidOrderQuantity ≠ .orderFailed nm e2 := by
  have hpre : order [⟨"A", 10, 1, true, .standard⟩]
      [Item.pair (.prodRef 0) (.intVal 1)]
      = (.ok 10, [⟨"A", 10, 0, false, .standard⟩]) := by
    simp [order, orderAux, processItem, buy, buyBase, set_quantity, is_active]
  exact order_lazy_validation [⟨"A", 10, 1, true, .standard⟩]
    [Item.pair (.prodRef 0) (.intVal 1)]
    (Item.pair (.prodRef 0) (.intVal 0)) [] 10
    [⟨"A", 10, 0, false, .standard⟩] .invalidOrderQuantity hpre rfl

end BestBuy
